import Mathlib

/-!
Shallow embedding of the Florence-2 + SAM2 segmentation pipeline of
`lazy_tools/lazy_segment.py`: the POSIX path helpers it calls, the two
compositing operations (`create_red_mask_overlay`, `create_transparent_cutout`),
the per-box segmentation loop (`sam2_segmentation`), the orchestrator
(`process_image`) and the CLI entry point (`main`).

Images are row-major grids of pixels, a pixel being its list of uint8
channel values held as `Nat` (numpy arrays of shape h x w x c); masks are
boolean grids (shape h x w).  Model-inference stages (Florence grounding,
the SAM2 predictor) are parameters: the embedding takes their results as
oracle functions, since the claims are about the orchestration around them.
-/

namespace LazySegment

/-- A pixel: its list of channel values (uint8 values held as `Nat`). -/
abbrev Pixel := List Nat

/-- An image: a row-major grid of pixels (numpy array of shape h x w x c). -/
abbrev Img := List (List Pixel)

/-- A boolean 2D mask (numpy array of shape h x w, dtype bool). -/
abbrev BMask := List (List Bool)

/-- A bounding box `[x1, y1, x2, y2]` in image pixel coordinates. -/
abbrev BBox := List ℚ

/-- One result of `florence_phrase_grounding`: the dict
`\x7b "bbox": ..., "label": ..., "confidence": 1.0 \x7d` built at
`lazy_segment.py:367-373`. -/
structure GroundingResult where
  bbox : BBox
  label : List Char
  confidence : ℚ := 1
  deriving DecidableEq

/-- One result of `sam2_segmentation`: the dict
`\x7b "mask": ..., "score": ..., "bbox": ... \x7d` built at `lazy_segment.py:424`. -/
structure SamMask where
  mask : BMask
  score : ℚ
  bbox : BBox
  deriving DecidableEq

/-! ### POSIX path helpers (`os.path` as used by the pipeline) -/

/-- Splits a list at the LAST occurrence of `c`: returns `some (before, after)`
with `l = before ++ c :: after` and `c ∉ after`, or `none` when `c ∉ l`.
This is the `p.rfind(c)` index arithmetic of `posixpath`, in index-free form. -/
def rsplitLast (c : Char) : List Char → Option (List Char × List Char)
  | [] => none
  | x :: xs =>
    match rsplitLast c xs with
    | some (a, b) => some (x :: a, b)
    | none => if x = c then some ([], xs) else none

/-- `posixpath.basename`: everything after the last slash (`p[p.rfind(sep)+1:]`). -/
def basenameP (p : List Char) : List Char :=
  match rsplitLast '/' p with
  | some (_, b) => b
  | none => p

/-- `posixpath.dirname`: `head = p[:i+1]` for `i` the last slash index, then
`head.rstrip(sep)` unless `head` consists only of slashes; `""` when no slash. -/
def dirnameP (p : List Char) : List Char :=
  match rsplitLast '/' p with
  | none => []
  | some (a, _) =>
    let head := a ++ ['/']
    if head.all (fun ch => ch == '/') then head
    else (head.reverse.dropWhile (fun ch => ch == '/')).reverse

/-- `posixpath.splitext`: splits off the extension at the last dot, provided
that dot lies after the last slash and the basename has a non-dot character
before it (leading dots of the basename never start an extension). -/
def splitextP (p : List Char) : List Char × List Char :=
  let b := basenameP p
  let d := match rsplitLast '/' p with
    | some (a, _) => a ++ ['/']
    | none => ([] : List Char)
  match rsplitLast '.' b with
  | none => (p, [])
  | some (stem, ext) =>
    if stem.any (fun ch => ch != '.') then (d ++ stem, '.' :: ext) else (p, [])

/-- `posixpath.join` for two components: `b` if it is absolute, otherwise
`a + b` when `a` is empty or ends with a slash, otherwise `a + sep + b`. -/
def joinP (a b : List Char) : List Char :=
  if b.head? = some '/' then b
  else if a = [] ∨ a.getLast? = some '/' then a ++ b
  else a ++ '/' :: b

/-- Boolean test that `p` ends with `suf`. -/
def endsWithP (p suf : List Char) : Bool :=
  p.reverse.take suf.length == suf.reverse

/-- `output_path.lower().endswith(".png")` from `lazy_segment.py:521`. -/
def endsWithPngLower (p : List Char) : Bool :=
  endsWithP (p.map Char.toLower) ".png".toList

/-! ### Shape and channel predicates -/

/-- A mask is a rectangular `h x w` boolean array. -/
def maskRect (m : BMask) (h w : Nat) : Bool :=
  m.length == h && m.all (fun r => r.length == w)

/-- An image is a rectangular `h x w` grid of pixels. -/
def imgRect (img : Img) (h w : Nat) : Bool :=
  img.length == h && img.all (fun r => r.length == w)

/-- Every pixel of the image has exactly `c` channels. -/
def hasChannels (img : Img) (c : Nat) : Bool :=
  img.all (fun r => r.all (fun px => px.length == c))

/-! ### Compositing: `create_red_mask_overlay` (`lazy_segment.py:435-476`) -/

/-- The blend factor `alpha = 0.5` of `create_red_mask_overlay`. -/
def alphaCoef : ℚ := 1 / 2

/-- The `red_color = [255, 0, 0]` constant of `create_red_mask_overlay`. -/
def redColor : List Nat := [255, 0, 0]

/-- The numpy cast of a float64 value back into a uint8 array slot
(`overlay[mask] = <float array>`): C-style truncation toward zero; all
values arising here lie in `[0, 255]`, so this is the floor. -/
def castU8 (q : ℚ) : Nat := q.floor.toNat

/-- One channel of `overlay[mask] * (1 - alpha) + np.array(red_color) * alpha`.
For uint8 operands and `alpha = 0.5` the float64 arithmetic is exact, so
rational arithmetic models it faithfully. -/
def blendChan (v c : Nat) : Nat :=
  castU8 ((v : ℚ) * (1 - alphaCoef) + (c : ℚ) * alphaCoef)

/-- A full pixel blended against `red_color` (channel-wise broadcasting). -/
def blendPx (px : Pixel) : Pixel := List.zipWith blendChan px redColor

/-- One iteration of the overlay loop: `overlay[mask] = overlay[mask] * (1 -
alpha) + np.array(red_color) * alpha`.  numpy raises (and the surrounding
`try` of the Python function catches) when the mask shape differs from the
array shape or when broadcasting against the 3-element `red_color` fails
(pixels without exactly 3 channels); we return `none` in those cases.
`mask.astype(bool)` is the identity here since model masks are boolean. -/
def applyRedMask (ov : Img) (m : BMask) : Option Img :=
  if maskRect m ov.length (ov.headD []).length && hasChannels ov 3 then
    some (List.zipWith
      (fun rp rm => List.zipWith (fun px b => if b then blendPx px else px) rp rm) ov m)
  else none

/-- The channel count numpy reports in `arr.shape` — the length of the first
pixel for the pipeline's rectangular arrays.  `Image.fromarray` infers the
PIL mode from it: 3 channels give mode RGB, 4 give mode RGBA. -/
def arrChannels (ov : Img) : Nat := ((ov.headD []).headD []).length

/-- True when the output path carries a JPEG extension: PIL's `save` resolves
the format from the lowercased extension, and `.jpg`, `.jpeg`, `.jpe` and
`.jfif` are the registered JPEG extensions. -/
def jpegExt (p : List Char) : Bool :=
  endsWithP (p.map Char.toLower) ".jpg".toList ||
  endsWithP (p.map Char.toLower) ".jpeg".toList ||
  endsWithP (p.map Char.toLower) ".jpe".toList ||
  endsWithP (p.map Char.toLower) ".jfif".toList

/-- `create_red_mask_overlay(image, masks, output_path)`: copies the image
array, applies each mask's red blend sequentially, then saves
`Image.fromarray(overlay.astype(np.uint8))` to the caller's `output_path`
unchanged, returning that path; any exception inside the `try` yields `None`
(modelled: `none`).  The save raises deterministically when the array is
4-channel — `Image.fromarray` infers mode RGBA — and the path carries a JPEG
extension (`cannot write mode RGBA as JPEG`); the pipeline's other
mode/format combinations (RGB under any extension the pipeline uses, RGBA as
PNG) save successfully and are modelled as succeeding.  The final
`astype(np.uint8)` is the identity because the array stays uint8
throughout. -/
def createRedMaskOverlay (image : Img) (masks : List SamMask) (outputPath : List Char) :
    Option (List Char × Img) :=
  (masks.foldlM (fun ov md => applyRedMask ov md.mask) image).bind
    (fun ov => if arrChannels ov == 4 && jpegExt outputPath then none
      else some (outputPath, ov))

/-! ### Compositing: `create_transparent_cutout` (`lazy_segment.py:478-531`) -/

/-- `image.convert("RGB")` on a 3- or 4-channel image: keeps the first three
channels (PIL drops the alpha channel without matting). -/
def convertRGB (image : Img) : Img := image.map (List.map (fun px => px.take 3))

/-- One pixel of `image.convert("RGBA")` applied to an RGB image:
the RGB channels are kept and an opaque alpha channel is appended. -/
def rgbaPx (px : Pixel) : Pixel := px.take 3 ++ [255]

/-- `if image.mode != "RGBA": image_rgba = image.convert("RGBA") else:
image_rgba = image.copy()` — mode RGBA corresponding to 4-channel pixels. -/
def convertRGBA (image : Img) : Img :=
  if hasChannels image 4 then image else image.map (List.map rgbaPx)

/-- `np.zeros((height, width), dtype=bool)`. -/
def zeroMask (h w : Nat) : BMask := List.replicate h (List.replicate w false)

/-- Element-wise `combined_mask | mask`. -/
def orMask (a b : BMask) : BMask := List.zipWith (List.zipWith (fun x y => x || y)) a b

/-- The combined-mask loop of `create_transparent_cutout`: the union of all
masks, starting from the all-false mask. -/
def combinedMaskOf (h w : Nat) (masks : List SamMask) : BMask :=
  masks.foldl (fun acc md => orMask acc md.mask) (zeroMask h w)

/-- One pixel of `image_array[:, :, 3] = np.where(combined_mask, 255, 0)`. -/
def setAlphaPx (px : Pixel) (b : Bool) : Pixel := px.set 3 (if b then 255 else 0)

/-- `create_transparent_cutout(image, masks, output_path)`: converts to RGBA,
unions the masks, writes the union into the alpha channel, rewrites the
output path to `.png` unless it already ends in `.png` case-insensitively,
and returns the path actually written together with the written array.
Mask shapes that numpy would reject (raising inside the `try`) yield `none`. -/
def createTransparentCutout (image : Img) (masks : List SamMask) (outputPath : List Char) :
    Option (List Char × Img) :=
  let rgba := convertRGBA image
  let h := rgba.length
  let w := (rgba.headD []).length
  if masks.all (fun md => maskRect md.mask h w) then
    let cm := combinedMaskOf h w masks
    let arr := List.zipWith (fun rp rm => List.zipWith setAlphaPx rp rm) rgba cm
    let out := if endsWithPngLower outputPath then outputPath
               else (splitextP outputPath).1 ++ ".png".toList
    some (out, arr)
  else none

/-! ### Segmentation stage: `sam2_segmentation` (`lazy_segment.py:382-433`) -/

/-- `sam2_segmentation(image, bboxes)`.  The predictor is abstracted:
`predict bb` is the outcome of `self.sam2_predictor.predict(..., box=bb,
multimask_output=False)` followed by taking `masks[0]` and `scores[0]` —
`ok (mask, score)` on success, `error e` when the call raises.  `setImageOk`
stands for `set_image` completing without raising.  The whole loop sits in
one `try`: the first raising call sends control to the `except` branch,
which returns `[]` — so one failing box discards every mask, including those
already computed for earlier boxes. -/
def sam2Segmentation (loaded : Bool) (setImageOk : Bool)
    (predict : BBox → Except (List Char) (BMask × ℚ)) (bboxes : List BBox) :
    List SamMask :=
  if !loaded then []
  else if !setImageOk then []
  else
    match bboxes.mapM (fun bb => (predict bb).map (fun ms => SamMask.mk ms.1 ms.2 bb)) with
    | .ok l => l
    | .error _ => []

/-! ### Orchestrator: `process_image` (`lazy_segment.py:533-606`) -/

/-- Observable outcome of one `process_image` run: the output file written
(path and pixel content), if any, and whether the segmentation stage
(`sam2_segmentation`) was ever invoked. -/
structure ProcResult where
  written : Option (List Char × Img)
  segInvoked : Bool
  deriving DecidableEq

/-- The default output path derivation of `process_image`
(`lazy_segment.py:576-583`): `base_name = splitext(basename(image_path))[0]`,
`output_dir = dirname(image_path)`, then
`join(output_dir, base_name + "_cutout.png")` for cutout and
`join(output_dir, base_name + "_mask.jpg")` otherwise. -/
def defaultOutputPath (imagePath : List Char) (outputType : List Char) : List Char :=
  let baseName := (splitextP (basenameP imagePath)).1
  let outputDir := dirnameP imagePath
  if outputType == "cutout".toList then joinP outputDir (baseName ++ "_cutout.png".toList)
  else joinP outputDir (baseName ++ "_mask.jpg".toList)

/-- `process_image(image_path, text_prompt, output_path, output_type)`.
The filesystem and the two inference stages are oracles: `fsExists` is
`os.path.exists`, `loadImage p` the decoded pixel content of the file at `p`
(before the `convert("RGB")` the code applies), `ground img prompt` the
result of `florence_phrase_grounding`, and `segmentFn img bboxes` the result
of `sam2_segmentation`.  Missing file, empty grounding and empty
segmentation each end the run early with nothing written. -/
def processImage (fsExists : List Char → Bool) (loadImage : List Char → Img)
    (ground : Img → List Char → List GroundingResult)
    (segmentFn : Img → List BBox → List SamMask)
    (imagePath textPrompt : List Char) (outputPathArg : Option (List Char))
    (outputType : List Char) : ProcResult :=
  if !fsExists imagePath then ⟨none, false⟩
  else
    let image := convertRGB (loadImage imagePath)
    let groundingResults := ground image textPrompt
    if groundingResults.isEmpty then ⟨none, false⟩
    else
      let bboxes := groundingResults.map (fun r => r.bbox)
      let segMasks := segmentFn image bboxes
      if segMasks.isEmpty then ⟨none, true⟩
      else
        let outPath := outputPathArg.getD (defaultOutputPath imagePath outputType)
        if outputType == "cutout".toList then
          ⟨createTransparentCutout image segMasks outPath, true⟩
        else
          ⟨createRedMaskOverlay image segMasks outPath, true⟩

/-! ### CLI entry point: `main` (`lazy_segment.py:609-704`) -/

/-- Parsed command-line arguments of `main`. -/
structure Args where
  imagePath : List Char
  textPrompt : List Char
  outputPath : Option (List Char)
  cutout : Bool
  modelsDir : Option (List Char)
  model : List Char
  deriving DecidableEq

/-- Observable outcome of one `main` run: the process exit code, the
progress lines `main` itself prints (the models-directory display line kept
in its own field), whether pipeline construction — and with it model
loading — was reached, the actual model-resolution paths the constructed
pipeline uses (`self.models_dir`, `self.florence_model_path`), and the
`process_image` observables. -/
structure MainResult where
  exitCode : Nat
  printed : List (List Char)
  modelsDirLine : List Char
  modelsLoaded : Bool
  resolutionModelsDir : List Char
  florenceModelPath : List Char
  written : Option (List Char × Img)
  segInvoked : Bool
  deriving DecidableEq

/-- The two banner lines printed before argument validation. -/
def bannerLines : List (List Char) :=
  ["[SEGMENT] Florence-2 + SAM2 Segmentation Pipeline".toList, List.replicate 50 '=']

/-- The validation failure line of `lazy_segment.py:663`. -/
def errorMissingInput (p : List Char) : List Char :=
  "[ERROR] Input image not found: ".toList ++ p

/-- The configuration lines printed after validation (the quote marks the
code puts around the text prompt are elided).  None of them depends on
`--models-dir`; the models-directory display line is kept separately. -/
def configLines (args : Args) : List (List Char) :=
  ["[INPUT] Input image: ".toList ++ args.imagePath,
   "[PROMPT] Text prompt: ".toList ++ args.textPrompt,
   (if args.cutout then "[TYPE] Output type: Transparent cutout".toList
    else "[TYPE] Output type: Red mask overlay".toList),
   "[MODEL] SAM2 model: ".toList ++ args.model,
   (match args.outputPath with
    | some p => "[OUTPUT] Output path: ".toList ++ p
    | none =>
      "Output path: Auto-generated ".toList ++
        (if args.cutout then "_cutout.png".toList else "_mask.jpg".toList))]

/-- `main()` with its environment abstracted.  `moduleDir` is
`os.path.dirname(__file__)` of the pipeline module.  If the input image does
not exist, `main` prints an error and exits 1 before any pipeline (and hence
model-loading) work.  Otherwise it prints its configuration — displaying
`args.models_dir` when given, although `FloSAM2Pipeline.__init__` ignores it
and always resolves models under `join(moduleDir, "models")` — constructs the
pipeline (whose `_load_models` catches all its own exceptions) and runs
`process_image`, ending with exit code 0.  The displayed directory is
recorded before the `os.path.abspath` formatting applied at print time. -/
def mainRun (moduleDir : List Char) (fsExists : List Char → Bool)
    (loadImage : List Char → Img)
    (ground : Img → List Char → List GroundingResult)
    (loaded setImageOk : Bool) (predict : BBox → Except (List Char) (BMask × ℚ))
    (args : Args) : MainResult :=
  if !fsExists args.imagePath then
    { exitCode := 1
      printed := bannerLines ++ [errorMissingInput args.imagePath]
      modelsDirLine := []
      modelsLoaded := false
      resolutionModelsDir := []
      florenceModelPath := []
      written := none
      segInvoked := false }
  else
    let outputType := if args.cutout then "cutout".toList else "overlay".toList
    let displayDir := args.modelsDir.getD (joinP moduleDir "models".toList)
    let pipelineModelsDir := joinP moduleDir "models".toList
    let res := processImage fsExists loadImage ground
      (fun _img bbs => sam2Segmentation loaded setImageOk predict bbs)
      args.imagePath args.textPrompt args.outputPath outputType
    { exitCode := 0
      printed := bannerLines ++ configLines args
      modelsDirLine := "[MODELS] Models directory: ".toList ++ displayDir
      modelsLoaded := true
      resolutionModelsDir := pipelineModelsDir
      florenceModelPath := joinP pipelineModelsDir "florence-2-large-ft".toList
      written := res.written
      segInvoked := res.segInvoked }

/-! ### Accessors used to state pixel-wise properties -/

/-- The pixel at row `i`, column `j` (defaulting to `[]` out of range). -/
def pxAt (img : Img) (i j : Nat) : Pixel := (img.getD i []).getD j []

/-- The mask bit at row `i`, column `j` (defaulting to `false` out of range). -/
def mAt (m : BMask) (i j : Nat) : Bool := (m.getD i []).getD j false

/-- Modelled from the spec's words, for comparison with the code in claim C2:
one channel of `round(source(p) * 0.5 + (255,0,0) * 0.5)`, `round` being
rounding to nearest (Mathlib's `round`, halves up). -/
def roundBlendChan (v c : Nat) : Nat :=
  (round ((v : ℚ) * (1 - alphaCoef) + (c : ℚ) * alphaCoef)).toNat

/-- Modelled from the spec's words: a full pixel of the claimed
`round(source * 0.5 + (255,0,0) * 0.5)` blend. -/
def roundBlendPx (px : Pixel) : Pixel := List.zipWith roundBlendChan px redColor

/-! ## Helper lemmas: grids -/

theorem getD_zipWith {α β γ : Type} (f : α → β → γ) (da : α) (db : β) (dc : γ) :
    ∀ (as : List α) (bs : List β) (i : Nat), i < as.length → i < bs.length →
      (List.zipWith f as bs).getD i dc = f (as.getD i da) (bs.getD i db)
  | _ :: _, _ :: _, 0, _, _ => rfl
  | _ :: as, _ :: bs, i + 1, ha, hb =>
    getD_zipWith f da db dc as bs i (Nat.lt_of_succ_lt_succ ha) (Nat.lt_of_succ_lt_succ hb)
  | [], _, i, ha, _ => absurd ha (Nat.not_lt_zero i)
  | _ :: _, [], i, _, hb => absurd hb (Nat.not_lt_zero i)

theorem getD_map {α β : Type} (f : α → β) (da : α) (db : β) :
    ∀ (l : List α) (i : Nat), i < l.length → (l.map f).getD i db = f (l.getD i da)
  | _ :: _, 0, _ => rfl
  | _ :: l, i + 1, h => getD_map f da db l i (Nat.lt_of_succ_lt_succ h)
  | [], i, h => absurd h (Nat.not_lt_zero i)

theorem all_zipWith {α β γ : Type} {f : α → β → γ} {p : γ → Bool} {q1 : α → Bool}
    {q2 : β → Bool} (h : ∀ a b, q1 a = true → q2 b = true → p (f a b) = true) :
    ∀ (l1 : List α) (l2 : List β), l1.all q1 = true → l2.all q2 = true →
      (List.zipWith f l1 l2).all p = true
  | [], _, _, _ => rfl
  | _ :: _, [], _, _ => rfl
  | a :: l1, b :: l2, h1, h2 => by
    simp only [List.zipWith_cons_cons, List.all_cons, Bool.and_eq_true] at h1 h2 ⊢
    exact ⟨h a b h1.1 h2.1, all_zipWith h l1 l2 h1.2 h2.2⟩

theorem rect_spec {α : Type} {l : List (List α)} {h w : Nat}
    (hr : (l.length == h && l.all fun r => r.length == w) = true) :
    l.length = h ∧ ∀ r ∈ l, r.length = w := by
  simpa only [Bool.and_eq_true, beq_iff_eq, List.all_eq_true] using hr

theorem rect_of_spec {α : Type} {l : List (List α)} {h w : Nat}
    (h1 : l.length = h) (h2 : ∀ r ∈ l, r.length = w) :
    (l.length == h && l.all fun r => r.length == w) = true := by
  simp only [Bool.and_eq_true, beq_iff_eq, List.all_eq_true]
  exact ⟨h1, h2⟩

theorem rect_row {α : Type} {l : List (List α)} {h w i : Nat}
    (h1 : l.length = h) (h2 : ∀ r ∈ l, r.length = w) (hi : i < h) :
    (l.getD i []).length = w := by
  have hl : i < l.length := h1 ▸ hi
  rw [List.getD_eq_getElem _ _ hl]
  exact h2 _ (List.getElem_mem hl)

theorem getD_mem_of_lt {α : Type} {l : List α} {i : Nat} (d : α) (h : i < l.length) :
    l.getD i d ∈ l := by
  rw [List.getD_eq_getElem _ _ h]
  exact List.getElem_mem h

theorem hasChannels_px {img : Img} {c h w i j : Nat} (hc : hasChannels img c = true)
    (h1 : img.length = h) (h2 : ∀ r ∈ img, r.length = w) (hi : i < h) (hj : j < w) :
    (pxAt img i j).length = c := by
  simp only [hasChannels, List.all_eq_true, beq_iff_eq] at hc
  have hl : i < img.length := h1 ▸ hi
  have hrow : img.getD i [] ∈ img := getD_mem_of_lt [] hl
  have hj' : j < (img.getD i []).length := (h2 _ hrow) ▸ hj
  exact hc _ hrow _ (getD_mem_of_lt [] hj')

theorem length_three_cases {px : Pixel} (h : px.length = 3) :
    ∃ a b c, px = [a, b, c] := by
  match px, h with
  | [a, b, c], _ => exact ⟨a, b, c, rfl⟩

theorem length_four_cases {px : Pixel} (h : px.length = 4) :
    ∃ a b c d, px = [a, b, c, d] := by
  match px, h with
  | [a, b, c, d], _ => exact ⟨a, b, c, d, rfl⟩

/-! ## Helper lemmas: paths -/

theorem rsplitLast_eq_none {c : Char} {l : List Char} (h : c ∉ l) :
    rsplitLast c l = none := by
  induction l with
  | nil => rfl
  | cons x xs ih =>
    simp only [List.mem_cons, not_or] at h
    simp only [rsplitLast, ih h.2]
    rw [if_neg fun e => h.1 e.symm]

theorem rsplitLast_append {c : Char} {ys : List Char} (h : c ∉ ys) (xs : List Char) :
    rsplitLast c (xs ++ c :: ys) = some (xs, ys) := by
  induction xs with
  | nil => simp [rsplitLast, rsplitLast_eq_none h]
  | cons x xs ih => simp [rsplitLast, ih]

theorem basenameP_no_slash {p : List Char} (h : '/' ∉ p) : basenameP p = p := by
  simp [basenameP, rsplitLast_eq_none h]

theorem basenameP_append {d rest : List Char} (h : '/' ∉ rest) :
    basenameP (d ++ '/' :: rest) = rest := by
  simp [basenameP, rsplitLast_append h]

theorem splitextP_stem_ext {stem ext : List Char} (hne : stem ≠ [])
    (hs : '/' ∉ stem) (hd : '.' ∉ stem) (he1 : '/' ∉ ext) (he2 : '.' ∉ ext) :
    splitextP (stem ++ '.' :: ext) = (stem, '.' :: ext) := by
  have hslash : '/' ∉ stem ++ '.' :: ext := by
    simp only [List.mem_append, List.mem_cons, not_or]
    exact ⟨hs, by decide, he1⟩
  have hany : stem.any (fun ch => ch != '.') = true := by
    cases stem with
    | nil => exact absurd rfl hne
    | cons s ss =>
      simp only [List.mem_cons, not_or] at hd
      simp only [List.any_cons, Bool.or_eq_true, bne_iff_ne]
      exact Or.inl fun e => hd.1 e.symm
  simp [splitextP, basenameP_no_slash hslash, rsplitLast_eq_none hslash,
    rsplitLast_append he2, hany]

theorem dirnameP_no_slash {p : List Char} (h : '/' ∉ p) : dirnameP p = [] := by
  simp [dirnameP, rsplitLast_eq_none h]

theorem dropTrailing_slash {l : List Char} (h : l.getLast? ≠ some '/') :
    ((l ++ ['/']).reverse.dropWhile (fun ch => ch == '/')).reverse = l := by
  rw [List.reverse_append]
  simp only [List.reverse_cons, List.reverse_nil, List.nil_append, List.singleton_append,
    List.dropWhile_cons]
  rw [if_pos (by rfl)]
  have : l.reverse.dropWhile (fun ch => ch == '/') = l.reverse := by
    cases hrev : l.reverse with
    | nil => rfl
    | cons r rs =>
      have hr : l.getLast? = some r := by
        rw [← List.head?_reverse, hrev]; rfl
      have : r ≠ '/' := fun e => h (e ▸ hr)
      simp [List.dropWhile_cons, this]
  rw [this, List.reverse_reverse]

theorem dirnameP_append {dirp rest : List Char} (h : '/' ∉ rest)
    (hd : dirp.getLast? ≠ some '/') :
    dirnameP (dirp ++ '/' :: rest) = if dirp = [] then ['/'] else dirp := by
  simp only [dirnameP, rsplitLast_append h]
  cases hdp : dirp with
  | nil => rfl
  | cons d ds =>
    have hall : ((d :: ds) ++ ['/']).all (fun ch => ch == '/') = false := by
      rcases hrev : (d :: ds).reverse with _ | ⟨r, rs⟩
      · exact absurd hrev (by simp)
      · have hr : (d :: ds).getLast? = some r := by
          rw [← List.head?_reverse, hrev]; rfl
        have hrne : r ≠ '/' := fun e => (hdp ▸ hd) (e ▸ hr)
        have hrmem : r ∈ (d :: ds) ++ ['/'] :=
          List.mem_append_left _ (List.mem_of_mem_getLast? hr)
        rw [List.all_eq_false]
        exact ⟨r, hrmem, by simpa using hrne⟩
    rw [hall]
    simp only [Bool.false_eq_true, if_false]
    exact dropTrailing_slash (hdp ▸ hd)

theorem joinP_empty_left {b : List Char} (hb : b.head? ≠ some '/') : joinP [] b = b := by
  simp [joinP, hb]

theorem joinP_no_trailing {a b : List Char} (ha : a ≠ []) (ha2 : a.getLast? ≠ some '/')
    (hb : b.head? ≠ some '/') : joinP a b = a ++ '/' :: b := by
  simp [joinP, hb, ha, ha2]

theorem joinP_root {b : List Char} (hb : b.head? ≠ some '/') :
    joinP ['/'] b = '/' :: b := by
  simp [joinP, hb]

theorem head_append_ne_slash {stem s : List Char} (hne : stem ≠ []) (hs : '/' ∉ stem) :
    (stem ++ s).head? ≠ some '/' := by
  cases stem with
  | nil => exact absurd rfl hne
  | cons st sts =>
    simp only [List.mem_cons, not_or] at hs
    simp only [List.cons_append, List.head?_cons]
    exact fun e => hs.1 (Option.some.inj e).symm

theorem derived_bare {stem ext : List Char} (s : List Char) (hne : stem ≠ [])
    (hs : '/' ∉ stem) (hdot : '.' ∉ stem) (he1 : '/' ∉ ext) (he2 : '.' ∉ ext) :
    joinP (dirnameP (stem ++ '.' :: ext))
      ((splitextP (basenameP (stem ++ '.' :: ext))).1 ++ s) = stem ++ s := by
  have hslash : '/' ∉ stem ++ '.' :: ext := by
    simp only [List.mem_append, List.mem_cons, not_or]
    exact ⟨hs, by decide, he1⟩
  rw [basenameP_no_slash hslash, splitextP_stem_ext hne hs hdot he1 he2,
    dirnameP_no_slash hslash]
  exact joinP_empty_left (head_append_ne_slash hne hs)

theorem derived_dir {dirp stem ext : List Char} (s : List Char) (hne : stem ≠ [])
    (hs : '/' ∉ stem) (hdot : '.' ∉ stem) (he1 : '/' ∉ ext) (he2 : '.' ∉ ext)
    (hdp : dirp.getLast? ≠ some '/') :
    joinP (dirnameP (dirp ++ '/' :: (stem ++ '.' :: ext)))
      ((splitextP (basenameP (dirp ++ '/' :: (stem ++ '.' :: ext)))).1 ++ s)
      = dirp ++ '/' :: (stem ++ s) := by
  have hrest : '/' ∉ stem ++ '.' :: ext := by
    simp only [List.mem_append, List.mem_cons, not_or]
    exact ⟨hs, by decide, he1⟩
  rw [basenameP_append hrest, splitextP_stem_ext hne hs hdot he1 he2,
    dirnameP_append hrest hdp]
  cases hdpe : dirp with
  | nil =>
    rw [if_pos rfl, joinP_root (head_append_ne_slash hne hs)]
    rfl
  | cons d ds =>
    rw [if_neg (by simp)]
    exact joinP_no_trailing (by simp) (hdpe ▸ hdp) (head_append_ne_slash hne hs)

/-- Claim C5: when the caller omits the output path, `process_image` derives
`\x7bbasename\x7d_mask.jpg` in the input image's directory for overlay output
and `\x7bbasename\x7d_cutout.png` for cutout output; in particular
`photo.jpg` derives `photo_mask.jpg` (overlay) and `photo_cutout.png`
(cutout).  Stated for a bare filename `stem.ext` and for a path
`dirp/stem.ext` with a directory part. -/
theorem default_output_path_derivation (dirp stem ext : List Char) (hne : stem ≠ [])
    (hs : '/' ∉ stem) (hdot : '.' ∉ stem) (he1 : '/' ∉ ext) (he2 : '.' ∉ ext)
    (hdp : dirp.getLast? ≠ some '/') :
    defaultOutputPath (stem ++ '.' :: ext) "overlay".toList = stem ++ "_mask.jpg".toList ∧
    defaultOutputPath (stem ++ '.' :: ext) "cutout".toList = stem ++ "_cutout.png".toList ∧
    defaultOutputPath (dirp ++ '/' :: (stem ++ '.' :: ext)) "overlay".toList
      = dirp ++ '/' :: (stem ++ "_mask.jpg".toList) ∧
    defaultOutputPath (dirp ++ '/' :: (stem ++ '.' :: ext)) "cutout".toList
      = dirp ++ '/' :: (stem ++ "_cutout.png".toList) ∧
    defaultOutputPath "photo.jpg".toList "overlay".toList = "photo_mask.jpg".toList ∧
    defaultOutputPath "photo.jpg".toList "cutout".toList = "photo_cutout.png".toList := by
  have hov : ("overlay".toList == "cutout".toList) = false := by decide
  have hct : ("cutout".toList == "cutout".toList) = true := by decide
  refine ⟨?_, ?_, ?_, ?_, by decide, by decide⟩
  · simp only [defaultOutputPath, hov, Bool.false_eq_true, if_false]
    exact derived_bare _ hne hs hdot he1 he2
  · simp only [defaultOutputPath, hct, if_true]
    exact derived_bare _ hne hs hdot he1 he2
  · simp only [defaultOutputPath, hov, Bool.false_eq_true, if_false]
    exact derived_dir _ hne hs hdot he1 he2 hdp
  · simp only [defaultOutputPath, hct, if_true]
    exact derived_dir _ hne hs hdot he1 he2 hdp

/-- Witness for C5 at `dirp = "pics"`, `stem = "photo"`, `ext = "jpg"`. -/
theorem default_output_path_derivation_witness :
    ("photo".toList ≠ [] ∧ '/' ∉ "photo".toList ∧ '.' ∉ "photo".toList ∧
      '/' ∉ "jpg".toList ∧ '.' ∉ "jpg".toList ∧ "pics".toList.getLast? ≠ some '/') ∧
    (defaultOutputPath ("photo".toList ++ '.' :: "jpg".toList) "overlay".toList
      = "photo".toList ++ "_mask.jpg".toList ∧
     defaultOutputPath ("photo".toList ++ '.' :: "jpg".toList) "cutout".toList
      = "photo".toList ++ "_cutout.png".toList ∧
     defaultOutputPath ("pics".toList ++ '/' :: ("photo".toList ++ '.' :: "jpg".toList))
        "overlay".toList = "pics".toList ++ '/' :: ("photo".toList ++ "_mask.jpg".toList) ∧
     defaultOutputPath ("pics".toList ++ '/' :: ("photo".toList ++ '.' :: "jpg".toList))
        "cutout".toList = "pics".toList ++ '/' :: ("photo".toList ++ "_cutout.png".toList) ∧
     defaultOutputPath "photo.jpg".toList "overlay".toList = "photo_mask.jpg".toList ∧
     defaultOutputPath "photo.jpg".toList "cutout".toList = "photo_cutout.png".toList) :=
  ⟨by decide,
   default_output_path_derivation "pics".toList "photo".toList "jpg".toList
     (by decide) (by decide) (by decide) (by decide) (by decide) (by decide)⟩

/-- Counterexample to claim C10 as stated: for a 4-channel RGBA image and a
`.jpg` output path, `result_image.save` raises `cannot write mode RGBA as
JPEG`; the `except` catches it and the function returns `None` with nothing
written — not the given output path, so the empty mask list is not an
identity for every image. -/
theorem createRedMaskOverlay_nil (image : Img) (p : List Char) :
    createRedMaskOverlay image [] p
      = if arrChannels image == 4 && jpegExt p then none else some (p, image) := rfl

theorem overlay_empty_masks_jpeg_counterexample :
    createRedMaskOverlay [[[1, 2, 3, 4]]] [] "o.jpg".toList = none ∧
    (none : Option (List Char × Img)) ≠ some ("o.jpg".toList, [[[1, 2, 3, 4]]]) := by
  exact ⟨rfl, by simp⟩

/-- Claim C10 (amended): with an empty mask list `create_red_mask_overlay`
leaves the pixel buffer byte-identical and returns the caller's output path
whenever the final save succeeds — i.e. unless the image is a 4-channel RGBA
array and the path carries a JPEG extension; in that failing case the save
raises and the function returns `None`, writing nothing. -/
theorem overlay_empty_masks_identity (image imageR : Img) (p pj : List Char)
    (hok : (arrChannels image == 4 && jpegExt p) = false)
    (hbad : (arrChannels imageR == 4 && jpegExt pj) = true) :
    createRedMaskOverlay image [] p = some (p, image) ∧
    createRedMaskOverlay imageR [] pj = none := by
  constructor
  · rw [createRedMaskOverlay_nil, hok]
    rfl
  · rw [createRedMaskOverlay_nil, hbad]
    rfl

/-- Witness for C10 (amended): a 3-channel image saves to `o.jpg` unchanged;
the same request with a 4-channel image returns `None`. -/
theorem overlay_empty_masks_identity_witness :
    ((arrChannels [[[1, 2, 3]]] == 4 && jpegExt "o.jpg".toList) = false ∧
      (arrChannels [[[1, 2, 3, 4]]] == 4 && jpegExt "o.jpg".toList) = true) ∧
    createRedMaskOverlay [[[1, 2, 3]]] [] "o.jpg".toList
      = some ("o.jpg".toList, [[[1, 2, 3]]]) ∧
    createRedMaskOverlay [[[1, 2, 3, 4]]] [] "o.jpg".toList = none :=
  ⟨⟨by decide, by decide⟩,
    overlay_empty_masks_identity [[[1, 2, 3]]] [[[1, 2, 3, 4]]] "o.jpg".toList
      "o.jpg".toList (by decide) (by decide)⟩

/-- Claim C7: when the input image path does not exist, `main` prints an
error line, exits with status 1, and never reaches pipeline construction,
so no model loading is performed. -/
theorem main_missing_input_exits_one (moduleDir : List Char)
    (fsExists : List Char → Bool) (loadImage : List Char → Img)
    (ground : Img → List Char → List GroundingResult) (loaded setImageOk : Bool)
    (predict : BBox → Except (List Char) (BMask × ℚ)) (args : Args)
    (h : fsExists args.imagePath = false) :
    (mainRun moduleDir fsExists loadImage ground loaded setImageOk predict args).exitCode
      = 1 ∧
    errorMissingInput args.imagePath ∈
      (mainRun moduleDir fsExists loadImage ground loaded setImageOk predict args).printed ∧
    (mainRun moduleDir fsExists loadImage ground loaded setImageOk predict
      args).modelsLoaded = false := by
  simp [mainRun, h]

/-- Witness for C7 on a filesystem with no files at all. -/
theorem main_missing_input_exits_one_witness :
    ((fun _ : List Char => false) "a.jpg".toList = false) ∧
    ((mainRun "m".toList (fun _ => false) (fun _ => []) (fun _ _ => []) false false
        (fun _ => Except.error [])
        ⟨"a.jpg".toList, "x".toList, none, false, none, "base_plus".toList⟩).exitCode = 1 ∧
     errorMissingInput "a.jpg".toList ∈
       (mainRun "m".toList (fun _ => false) (fun _ => []) (fun _ _ => []) false false
        (fun _ => Except.error [])
        ⟨"a.jpg".toList, "x".toList, none, false, none, "base_plus".toList⟩).printed ∧
     (mainRun "m".toList (fun _ => false) (fun _ => []) (fun _ _ => []) false false
        (fun _ => Except.error [])
        ⟨"a.jpg".toList, "x".toList, none, false, none,
          "base_plus".toList⟩).modelsLoaded = false) :=
  ⟨rfl, main_missing_input_exits_one "m".toList (fun _ => false) (fun _ => [])
    (fun _ _ => []) false false (fun _ => Except.error [])
    ⟨"a.jpg".toList, "x".toList, none, false, none, "base_plus".toList⟩ rfl⟩

/-- Claim C8: when the grounding stage returns zero bounding boxes, the run
writes no output file, the segmentation stage is never invoked, and the
process still exits with code 0 (a soft no-op). -/
theorem empty_grounding_soft_noop (moduleDir : List Char)
    (fsExists : List Char → Bool) (loadImage : List Char → Img)
    (ground : Img → List Char → List GroundingResult) (loaded setImageOk : Bool)
    (predict : BBox → Except (List Char) (BMask × ℚ)) (args : Args)
    (h1 : fsExists args.imagePath = true)
    (h2 : ground (convertRGB (loadImage args.imagePath)) args.textPrompt = []) :
    (mainRun moduleDir fsExists loadImage ground loaded setImageOk predict args).written
      = none ∧
    (mainRun moduleDir fsExists loadImage ground loaded setImageOk predict
      args).segInvoked = false ∧
    (mainRun moduleDir fsExists loadImage ground loaded setImageOk predict args).exitCode
      = 0 := by
  simp [mainRun, h1, processImage, h2]

/-- Witness for C8 with a grounding oracle that finds nothing. -/
theorem empty_grounding_soft_noop_witness :
    ((fun _ : List Char => true) "a.jpg".toList = true) ∧
    ((fun _ : Img => fun _ : List Char => ([] : List GroundingResult))
      (convertRGB ((fun _ => [[[1, 2, 3]]]) "a.jpg".toList)) "x".toList = []) ∧
    ((mainRun "m".toList (fun _ => true) (fun _ => [[[1, 2, 3]]]) (fun _ _ => [])
        true true (fun _ => Except.error [])
        ⟨"a.jpg".toList, "x".toList, none, false, none, "base_plus".toList⟩).written
      = none ∧
     (mainRun "m".toList (fun _ => true) (fun _ => [[[1, 2, 3]]]) (fun _ _ => [])
        true true (fun _ => Except.error [])
        ⟨"a.jpg".toList, "x".toList, none, false, none, "base_plus".toList⟩).segInvoked
      = false ∧
     (mainRun "m".toList (fun _ => true) (fun _ => [[[1, 2, 3]]]) (fun _ _ => [])
        true true (fun _ => Except.error [])
        ⟨"a.jpg".toList, "x".toList, none, false, none, "base_plus".toList⟩).exitCode
      = 0) :=
  ⟨rfl, rfl, empty_grounding_soft_noop "m".toList (fun _ => true)
    (fun _ => [[[1, 2, 3]]]) (fun _ _ => []) true true (fun _ => Except.error [])
    ⟨"a.jpg".toList, "x".toList, none, false, none, "base_plus".toList⟩ rfl rfl⟩

/-- Claim C9: two CLI invocations differing only in `--models-dir` have
identical loader model-resolution paths (`self.models_dir` and the Florence
path are fixed relative to the pipeline module), identical exit code,
progress lines, model-loading behavior and written output: the flag affects
only the printed models-directory display line. -/
theorem models_dir_display_only (moduleDir : List Char)
    (fsExists : List Char → Bool) (loadImage : List Char → Img)
    (ground : Img → List Char → List GroundingResult) (loaded setImageOk : Bool)
    (predict : BBox → Except (List Char) (BMask × ℚ)) (a : Args)
    (d1 d2 : Option (List Char)) :
    (mainRun moduleDir fsExists loadImage ground loaded setImageOk predict
        { a with modelsDir := d1 }).resolutionModelsDir
      = (mainRun moduleDir fsExists loadImage ground loaded setImageOk predict
        { a with modelsDir := d2 }).resolutionModelsDir ∧
    (mainRun moduleDir fsExists loadImage ground loaded setImageOk predict
        { a with modelsDir := d1 }).florenceModelPath
      = (mainRun moduleDir fsExists loadImage ground loaded setImageOk predict
        { a with modelsDir := d2 }).florenceModelPath ∧
    (mainRun moduleDir fsExists loadImage ground loaded setImageOk predict
        { a with modelsDir := d1 }).exitCode
      = (mainRun moduleDir fsExists loadImage ground loaded setImageOk predict
        { a with modelsDir := d2 }).exitCode ∧
    (mainRun moduleDir fsExists loadImage ground loaded setImageOk predict
        { a with modelsDir := d1 }).printed
      = (mainRun moduleDir fsExists loadImage ground loaded setImageOk predict
        { a with modelsDir := d2 }).printed ∧
    (mainRun moduleDir fsExists loadImage ground loaded setImageOk predict
        { a with modelsDir := d1 }).modelsLoaded
      = (mainRun moduleDir fsExists loadImage ground loaded setImageOk predict
        { a with modelsDir := d2 }).modelsLoaded ∧
    (mainRun moduleDir fsExists loadImage ground loaded setImageOk predict
        { a with modelsDir := d1 }).written
      = (mainRun moduleDir fsExists loadImage ground loaded setImageOk predict
        { a with modelsDir := d2 }).written ∧
    (mainRun moduleDir fsExists loadImage ground loaded setImageOk predict
        { a with modelsDir := d1 }).segInvoked
      = (mainRun moduleDir fsExists loadImage ground loaded setImageOk predict
        { a with modelsDir := d2 }).segInvoked := by
  by_cases hf : fsExists a.imagePath <;> simp [mainRun, hf, configLines]

/-! ## Helper lemmas: the blend arithmetic -/

theorem ratFloor_eq_intFloor (q : ℚ) : q.floor = ⌊q⌋ := by
  rw [Rat.floor_def', Rat.floor_def]

/-- The float blend `v * 0.5 + c * 0.5` stored into a uint8 slot is exactly
integer `(v + c) / 2` (floor division): the claimed rounding never happens. -/
theorem blendChan_eq (v c : Nat) : blendChan v c = (v + c) / 2 := by
  have h1 : (v : ℚ) * (1 - alphaCoef) + (c : ℚ) * alphaCoef
      = ((v + c : ℕ) : ℚ) / ((2 : ℕ) : ℚ) := by
    unfold alphaCoef; push_cast; ring
  unfold blendChan castU8
  rw [h1, ratFloor_eq_intFloor, Rat.floor_natCast_div_natCast, ← Int.natCast_div]
  exact Int.toNat_natCast _

theorem blendPx_three (a b c : Nat) :
    blendPx [a, b, c] = [(a + 255) / 2, b / 2, c / 2] := by
  simp only [blendPx, redColor, List.zipWith_cons_cons, List.zipWith_nil_right,
    blendChan_eq, Nat.add_zero]

/-! ## Helper lemmas: masks and the combined union -/

theorem getD_replicate_self {α : Type} (a : α) : ∀ (n i : Nat), (List.replicate n a).getD i a = a
  | 0, _ => rfl
  | _ + 1, 0 => rfl
  | n + 1, i + 1 => getD_replicate_self a n i

theorem zeroMask_rect (h w : Nat) : maskRect (zeroMask h w) h w = true := by
  apply rect_of_spec (by simp [zeroMask]) (fun r hr => ?_)
  rw [List.eq_of_mem_replicate hr]
  simp

theorem mAt_zeroMask (h w i j : Nat) : mAt (zeroMask h w) i j = false := by
  have houter : (List.replicate h (List.replicate w false)).getD i []
        = List.replicate w false ∨
      (List.replicate h (List.replicate w false)).getD i [] = [] := by
    rcases Nat.lt_or_ge i h with hi | hi
    · left
      rw [List.getD_eq_getElem _ _ (by simpa using hi)]
      exact List.getElem_replicate ..
    · right
      have hle : (List.replicate h (List.replicate w false)).length ≤ i := by simpa using hi
      simp [List.getD_eq_getElem?_getD, List.getElem?_eq_none hle]
  unfold mAt zeroMask
  rcases houter with he | he <;> rw [he]
  · exact getD_replicate_self false w j
  · rfl

theorem orMask_rect {a b : BMask} {h w : Nat} (ha : maskRect a h w = true)
    (hb : maskRect b h w = true) : maskRect (orMask a b) h w = true := by
  unfold maskRect at ha hb ⊢
  rw [Bool.and_eq_true] at ha hb ⊢
  have hstep : ∀ (ra rb : List Bool), (ra.length == w) = true → (rb.length == w) = true →
      ((List.zipWith (fun x y => x || y) ra rb).length == w) = true := by
    intro ra rb hra hrb
    simp only [beq_iff_eq] at hra hrb ⊢
    simp [hra, hrb]
  have hall := @all_zipWith (List Bool) (List Bool) (List Bool)
    (List.zipWith (fun x y => x || y)) (fun r => r.length == w)
    (fun r => r.length == w) (fun r => r.length == w) hstep a b ha.2 hb.2
  refine ⟨?_, hall⟩
  have la : a.length = h := by simpa using ha.1
  have lb : b.length = h := by simpa using hb.1
  simp [orMask, la, lb]

theorem mAt_orMask {a b : BMask} {h w i j : Nat} (ha : maskRect a h w = true)
    (hb : maskRect b h w = true) (hi : i < h) (hj : j < w) :
    mAt (orMask a b) i j = (mAt a i j || mAt b i j) := by
  obtain ⟨ha1, ha2⟩ := rect_spec ha
  obtain ⟨hb1, hb2⟩ := rect_spec hb
  unfold mAt orMask
  rw [getD_zipWith _ [] [] [] a b i (ha1 ▸ hi) (hb1 ▸ hi),
    getD_zipWith _ false false false _ _ j
      ((rect_row ha1 ha2 hi) ▸ hj) ((rect_row hb1 hb2 hi) ▸ hj)]

theorem fold_orMask_spec {h w : Nat} :
    ∀ (ms : List SamMask) (acc : BMask), maskRect acc h w = true →
      (∀ md ∈ ms, maskRect md.mask h w = true) →
      maskRect (ms.foldl (fun a md => orMask a md.mask) acc) h w = true ∧
      ∀ i j, i < h → j < w →
        mAt (ms.foldl (fun a md => orMask a md.mask) acc) i j
          = (mAt acc i j || ms.any (fun md => mAt md.mask i j))
  | [], acc, hacc, _ => ⟨hacc, by intro i j _ _; simp⟩
  | md :: ms, acc, hacc, hms => by
    have hmd : maskRect md.mask h w = true := hms md (List.mem_cons_self ..)
    have hrest : ∀ m ∈ ms, maskRect m.mask h w = true :=
      fun m hm => hms m (List.mem_cons_of_mem _ hm)
    have hstep := orMask_rect hacc hmd
    obtain ⟨h1, h2⟩ := fold_orMask_spec ms (orMask acc md.mask) hstep hrest
    refine ⟨by simpa using h1, ?_⟩
    intro i j hi hj
    have := h2 i j hi hj
    simp only [List.foldl_cons] at this ⊢
    rw [this, mAt_orMask hacc hmd hi hj]
    simp [Bool.or_assoc]

theorem combinedMaskOf_spec {h w : Nat} {masks : List SamMask}
    (hms : ∀ md ∈ masks, maskRect md.mask h w = true) :
    maskRect (combinedMaskOf h w masks) h w = true ∧
    ∀ i j, i < h → j < w →
      mAt (combinedMaskOf h w masks) i j = masks.any (fun md => mAt md.mask i j) := by
  obtain ⟨h1, h2⟩ := fold_orMask_spec masks (zeroMask h w) (zeroMask_rect h w) hms
  refine ⟨h1, fun i j hi hj => ?_⟩
  rw [combinedMaskOf, h2 i j hi hj, mAt_zeroMask]
  simp

/-! ## Helper lemmas: grid shapes under zipWith and map -/

theorem grid_zipWith_rect {α β γ : Type} (g : α → β → γ) {A : List (List α)}
    {B : List (List β)} {h w : Nat} (hA1 : A.length = h) (hA2 : ∀ r ∈ A, r.length = w)
    (hB1 : B.length = h) (hB2 : ∀ r ∈ B, r.length = w) :
    (List.zipWith (fun ra rb => List.zipWith g ra rb) A B).length = h ∧
    ∀ r ∈ List.zipWith (fun ra rb => List.zipWith g ra rb) A B, r.length = w := by
  refine ⟨by simp [hA1, hB1], ?_⟩
  intro r hr
  rw [List.mem_iff_getElem] at hr
  obtain ⟨i, hilen, heq⟩ := hr
  have hiA : i < A.length := by simp [List.length_zipWith, hA1, hB1] at hilen; omega
  have hiB : i < B.length := by simp [List.length_zipWith, hA1, hB1] at hilen; omega
  rw [List.getElem_zipWith] at heq
  have hwa : A[i].length = w := hA2 _ (List.getElem_mem hiA)
  have hwb : B[i].length = w := hB2 _ (List.getElem_mem hiB)
  rw [← heq]
  simp [hwa, hwb]

theorem map_rows_rect {α β : Type} (g : α → β) {l : List (List α)} {h w : Nat}
    (h1 : l.length = h) (h2 : ∀ r ∈ l, r.length = w) :
    (l.map (List.map g)).length = h ∧ ∀ r ∈ l.map (List.map g), r.length = w := by
  refine ⟨by simpa using h1, ?_⟩
  intro r hr
  obtain ⟨r0, hr0, hre⟩ := List.mem_map.mp hr
  rw [← hre]
  simpa using h2 r0 hr0

/-! ## Helper lemmas: image conversions -/

theorem convertRGB_rect {img : Img} {h w : Nat} (hr : imgRect img h w = true) :
    imgRect (convertRGB img) h w = true := by
  obtain ⟨h1, h2⟩ := rect_spec hr
  obtain ⟨h1m, h2m⟩ := map_rows_rect (fun px : Pixel => px.take 3) h1 h2
  exact rect_of_spec h1m h2m

theorem convertRGB_channels {img : Img}
    (hch : ∀ r ∈ img, ∀ px ∈ r, 3 ≤ px.length) :
    hasChannels (convertRGB img) 3 = true := by
  unfold convertRGB hasChannels
  rw [List.all_eq_true]
  intro r hr
  obtain ⟨r0, hr0, hre⟩ := List.mem_map.mp hr
  rw [← hre, List.all_eq_true]
  intro px hpx
  obtain ⟨px0, hpx0, hpe⟩ := List.mem_map.mp hpx
  have := hch r0 hr0 px0 hpx0
  rw [← hpe]
  simp only [List.length_take, beq_iff_eq]
  omega

theorem convertRGBA_rect {img : Img} {h w : Nat} (hr : imgRect img h w = true) :
    imgRect (convertRGBA img) h w = true := by
  obtain ⟨h1, h2⟩ := rect_spec hr
  unfold convertRGBA
  by_cases h4 : hasChannels img 4 = true
  · rw [if_pos h4]; exact hr
  · rw [if_neg h4]
    obtain ⟨h1m, h2m⟩ := map_rows_rect rgbaPx h1 h2
    exact rect_of_spec h1m h2m

theorem convertRGBA_channels {img : Img}
    (hch : hasChannels img 3 = true ∨ hasChannels img 4 = true) :
    hasChannels (convertRGBA img) 4 = true := by
  unfold convertRGBA
  by_cases h4 : hasChannels img 4 = true
  · rw [if_pos h4]; exact h4
  · rw [if_neg h4]
    have h3 : hasChannels img 3 = true := hch.resolve_right h4
    unfold hasChannels at h3 ⊢
    rw [List.all_eq_true] at h3 ⊢
    intro r hr
    obtain ⟨r0, hr0, hre⟩ := List.mem_map.mp hr
    rw [← hre, List.all_eq_true]
    intro px hpx
    obtain ⟨px0, hpx0, hpe⟩ := List.mem_map.mp hpx
    have hrow := h3 r0 hr0
    rw [List.all_eq_true] at hrow
    have hlen : (px0.length == 3) = true := hrow px0 hpx0
    simp only [beq_iff_eq] at hlen
    rw [← hpe]
    simp only [rgbaPx, List.length_append, List.length_take, beq_iff_eq,
      List.length_cons, List.length_nil]
    omega

theorem convertRGBA_px {img : Img} {h w i j : Nat} (hr : imgRect img h w = true)
    (hch : hasChannels img 3 = true ∨ hasChannels img 4 = true)
    (hi : i < h) (hj : j < w) :
    (pxAt (convertRGBA img) i j).take 3 = (pxAt img i j).take 3 ∧
    (pxAt (convertRGBA img) i j).length = 4 := by
  obtain ⟨h1, h2⟩ := rect_spec hr
  unfold convertRGBA
  by_cases h4 : hasChannels img 4 = true
  · rw [if_pos h4]
    exact ⟨rfl, hasChannels_px h4 h1 h2 hi hj⟩
  · rw [if_neg h4]
    have h3 : hasChannels img 3 = true := hch.resolve_right h4
    have hlen3 : (pxAt img i j).length = 3 := hasChannels_px h3 h1 h2 hi hj
    have hout : pxAt (img.map (List.map rgbaPx)) i j = rgbaPx (pxAt img i j) := by
      unfold pxAt
      rw [getD_map (List.map rgbaPx) [] [] img i (h1 ▸ hi),
        getD_map rgbaPx [] [] (img.getD i []) j ((rect_row h1 h2 hi) ▸ hj)]
    rw [hout]
    obtain ⟨x, y, z, hxyz⟩ := length_three_cases hlen3
    rw [hxyz]
    exact ⟨rfl, rfl⟩

/-! ## Helper lemmas: the overlay loop -/

theorem rect_headD_length {α : Type} {l : List (List α)} {h w : Nat}
    (h1 : l.length = h) (h2 : ∀ r ∈ l, r.length = w) (hpos : 0 < h) :
    (l.headD []).length = w := by
  cases l with
  | nil => rw [← h1] at hpos; simp at hpos
  | cons r rs => exact h2 r (List.mem_cons_self ..)

theorem applyRedMask_guard {ov : Img} {m : BMask} {h w : Nat}
    (hr : imgRect ov h w = true) (hc : hasChannels ov 3 = true)
    (hm : maskRect m h w = true) :
    (maskRect m ov.length ((ov.headD []).length) && hasChannels ov 3) = true := by
  obtain ⟨h1, h2⟩ := rect_spec hr
  rw [Bool.and_eq_true]
  refine ⟨?_, hc⟩
  rcases Nat.eq_zero_or_pos h with h0 | hpos
  · subst h0
    obtain ⟨hm1, _⟩ := rect_spec hm
    have hm0 : m = [] := List.length_eq_zero.mp hm1
    subst hm0
    rw [h1]
    rfl
  · rw [h1, rect_headD_length h1 h2 hpos]
    exact hm

theorem zip_blend_channels {ov : Img} {m : BMask} (hc : hasChannels ov 3 = true) :
    hasChannels (List.zipWith
      (fun rp rm => List.zipWith (fun px b => if b then blendPx px else px) rp rm) ov m)
      3 = true := by
  unfold hasChannels at hc ⊢
  have hstep : ∀ (rp : List Pixel) (rm : List Bool),
      (rp.all fun px => px.length == 3) = true → ((fun _ => true) rm) = true →
      ((List.zipWith (fun px b => if b then blendPx px else px) rp rm).all
        fun px => px.length == 3) = true := by
    intro rp rm hrp _
    have hin : ∀ (px : Pixel) (b : Bool), (px.length == 3) = true → ((fun _ => true) b) = true →
        (((if b then blendPx px else px) : Pixel).length == 3) = true := by
      intro px b hpx _
      simp only [beq_iff_eq] at hpx ⊢
      cases b with
      | false => simpa using hpx
      | true =>
        simp only [if_true, blendPx, redColor, List.length_zipWith, hpx]
        rfl
    exact @all_zipWith Pixel Bool Pixel (fun px b => if b then blendPx px else px)
      (fun px => px.length == 3) (fun px => px.length == 3) (fun _ => true)
      hin rp rm hrp (by simp)
  exact @all_zipWith (List Pixel) (List Bool) (List Pixel)
    (fun rp rm => List.zipWith (fun px b => if b then blendPx px else px) rp rm)
    (fun r => r.all fun px => px.length == 3) (fun r => r.all fun px => px.length == 3)
    (fun _ => true) hstep ov m hc (by simp)

theorem applyRedMask_spec {ov : Img} {m : BMask} {h w : Nat}
    (hr : imgRect ov h w = true) (hc : hasChannels ov 3 = true)
    (hm : maskRect m h w = true) :
    ∃ ov', applyRedMask ov m = some ov' ∧ imgRect ov' h w = true ∧
      hasChannels ov' 3 = true ∧
      ∀ i j, i < h → j < w →
        pxAt ov' i j = (if mAt m i j then blendPx (pxAt ov i j) else pxAt ov i j) := by
  have hg := applyRedMask_guard hr hc hm
  obtain ⟨h1, h2⟩ := rect_spec hr
  obtain ⟨hm1, hm2⟩ := rect_spec hm
  refine ⟨_, by rw [applyRedMask, if_pos hg], ?_, zip_blend_channels hc, ?_⟩
  · obtain ⟨hl, hrow⟩ := grid_zipWith_rect
      (fun px (b : Bool) => if b then blendPx px else px) h1 h2 hm1 hm2
    exact rect_of_spec hl hrow
  · intro i j hi hj
    unfold pxAt mAt
    rw [getD_zipWith _ [] [] [] ov m i (h1 ▸ hi) (hm1 ▸ hi),
      getD_zipWith _ [] false [] _ _ j
        ((rect_row h1 h2 hi) ▸ hj) ((rect_row hm1 hm2 hi) ▸ hj)]

theorem applyRedMask_some_channels {ov ov' : Img} {m : BMask}
    (hs : applyRedMask ov m = some ov') : hasChannels ov' 3 = true := by
  unfold applyRedMask at hs
  by_cases hg : (maskRect m ov.length ((ov.headD []).length) && hasChannels ov 3) = true
  · rw [if_pos hg] at hs
    have hc : hasChannels ov 3 = true := (Bool.and_eq_true _ _ ▸ hg).2
    rw [← Option.some.inj hs]
    exact zip_blend_channels hc
  · rw [if_neg hg] at hs
    exact absurd hs (by simp)

theorem save_ok_of_channels3 {ov : Img} (hc : hasChannels ov 3 = true)
    (p : List Char) : (arrChannels ov == 4 && jpegExt p) = false := by
  have hne : arrChannels ov ≠ 4 := by
    unfold arrChannels
    cases ov with
    | nil => simp
    | cons r rs =>
      cases r with
      | nil => simp
      | cons px pxs =>
        have hpx : px.length = 3 := by
          simp only [hasChannels, List.all_eq_true, beq_iff_eq] at hc
          exact hc (px :: pxs) (List.mem_cons_self ..) px (List.mem_cons_self ..)
        show px.length ≠ 4
        rw [hpx]
        decide
  rw [beq_eq_false_iff_ne.mpr hne, Bool.false_and]

theorem overlayFoldM_spec {h w : Nat} :
    ∀ (masks : List SamMask) (ov : Img), imgRect ov h w = true →
      hasChannels ov 3 = true → (∀ md ∈ masks, maskRect md.mask h w = true) →
      ∃ ov', List.foldlM (fun o (md : SamMask) => applyRedMask o md.mask) ov masks
          = some ov' ∧ imgRect ov' h w = true ∧ hasChannels ov' 3 = true
  | [], ov, hr, hc, _ => ⟨ov, rfl, hr, hc⟩
  | md :: ms, ov, hr, hc, hms => by
    obtain ⟨ov1, hs1, hr1, hc1, _⟩ := applyRedMask_spec hr hc (hms md (List.mem_cons_self ..))
    obtain ⟨ov', hs', hr', hc'⟩ := overlayFoldM_spec ms ov1 hr1 hc1
      (fun m hm => hms m (List.mem_cons_of_mem _ hm))
    refine ⟨ov', ?_, hr', hc'⟩
    rw [List.foldlM_cons, hs1]
    simpa using hs'

theorem overlayFoldM_channels :
    ∀ (masks : List SamMask) (ov ov' : Img), hasChannels ov 3 = true →
      List.foldlM (fun o (md : SamMask) => applyRedMask o md.mask) ov masks = some ov' →
      hasChannels ov' 3 = true
  | [], ov, ov', hc, hfold => (Option.some.inj hfold) ▸ hc
  | md :: ms, ov, ov', hc, hfold => by
    rw [List.foldlM_cons] at hfold
    cases happly : applyRedMask ov md.mask with
    | none => rw [happly] at hfold; exact absurd hfold (by simp)
    | some ov1 =>
      rw [happly] at hfold
      exact overlayFoldM_channels ms ov1 ov' (applyRedMask_some_channels happly) hfold

theorem cutout_guard {image : Img} {masks : List SamMask} {h w : Nat}
    (hr : imgRect image h w = true) (hms : ∀ md ∈ masks, maskRect md.mask h w = true) :
    masks.all (fun md => maskRect md.mask (convertRGBA image).length
      (((convertRGBA image).headD []).length)) = true := by
  have hrA := convertRGBA_rect hr
  obtain ⟨hA1, hA2⟩ := rect_spec hrA
  rw [List.all_eq_true]
  intro md hmd
  rcases Nat.eq_zero_or_pos h with h0 | hpos
  · subst h0
    obtain ⟨hm1, _⟩ := rect_spec (hms md hmd)
    have hmnil : md.mask = [] := List.length_eq_zero.mp hm1
    rw [hmnil, hA1]
    rfl
  · rw [hA1, rect_headD_length hA1 hA2 hpos]
    exact hms md hmd

theorem endsWithPngLower_append (a : List Char) :
    endsWithPngLower (a ++ ".png".toList) = true := by
  unfold endsWithPngLower endsWithP
  rw [List.map_append,
    show (List.map Char.toLower ".png".toList) = ".png".toList from by decide,
    List.reverse_append]
  have hl : (".png".toList.reverse).length = ".png".toList.length := by simp
  rw [show (".png".toList.reverse ++ (List.map Char.toLower a).reverse).take
        ".png".toList.length = ".png".toList.reverse from by rw [← hl, List.take_left]]
  simp

/-! ## Claims C1, C2, C6 -/

/-- Claim C1: the cutout composite sets, at every in-range pixel, the alpha
channel to 255 exactly when the pixel lies in the union of the input masks
and to 0 otherwise, while the RGB channels stay byte-identical to the source
image's RGB. -/
theorem cutout_alpha_union_rgb_preserved (image : Img) (masks : List SamMask)
    (p : List Char) (h w : Nat) (hr : imgRect image h w = true)
    (hch : hasChannels image 3 = true ∨ hasChannels image 4 = true)
    (hms : ∀ md ∈ masks, maskRect md.mask h w = true) (hne : masks ≠ [])
    (i j : Nat) (hi : i < h) (hj : j < w) :
    ∃ out arr, createTransparentCutout image masks p = some (out, arr) ∧
      (pxAt arr i j).getD 3 0
        = (if masks.any (fun md => mAt md.mask i j) then 255 else 0) ∧
      (pxAt arr i j).take 3 = (pxAt image i j).take 3 := by
  have hrA := convertRGBA_rect hr
  obtain ⟨hA1, hA2⟩ := rect_spec hrA
  have hpos : 0 < h := Nat.lt_of_le_of_lt (Nat.zero_le i) hi
  have hW : ((convertRGBA image).headD []).length = w := rect_headD_length hA1 hA2 hpos
  simp only [createTransparentCutout]
  rw [if_pos (cutout_guard hr hms), hA1, hW]
  obtain ⟨hcmR, hcmAt⟩ := combinedMaskOf_spec hms
  obtain ⟨hcm1, hcm2⟩ := rect_spec hcmR
  refine ⟨_, _, rfl, ?_, ?_⟩
  all_goals
    have hiA : i < (convertRGBA image).length := by rw [hA1]; exact hi
    have hicm : i < (combinedMaskOf h w masks).length := by rw [hcm1]; exact hi
    have hjA : j < ((convertRGBA image).getD i []).length := by
      rw [rect_row hA1 hA2 hi]; exact hj
    have hjcm : j < ((combinedMaskOf h w masks).getD i []).length := by
      rw [rect_row hcm1 hcm2 hi]; exact hj
    have harr : pxAt (List.zipWith (fun rp rm => List.zipWith setAlphaPx rp rm)
        (convertRGBA image) (combinedMaskOf h w masks)) i j
        = setAlphaPx (pxAt (convertRGBA image) i j)
            (mAt (combinedMaskOf h w masks) i j) := by
      unfold pxAt mAt
      rw [getD_zipWith _ [] [] [] (convertRGBA image) (combinedMaskOf h w masks) i
          hiA hicm,
        getD_zipWith _ [] false [] _ _ j hjA hjcm]
    obtain ⟨htake, hlen4⟩ := convertRGBA_px hr hch hi hj
    obtain ⟨a, b, c, d, habcd⟩ := length_four_cases hlen4
    rw [harr, habcd, hcmAt i j hi hj]
  · cases hany : masks.any (fun md => mAt md.mask i j) <;> rfl
  · have : ([a, b, c, d].set 3
        (if masks.any (fun md => mAt md.mask i j) then 255 else 0)).take 3
        = [a, b, c] := by cases masks.any (fun md => mAt md.mask i j) <;> rfl
    rw [setAlphaPx, this, ← htake, habcd]
    rfl

/-- Claim C2 (amended): inside the single mask the overlay pixel is the
float blend truncated to uint8 — component-wise `(v + red) / 2` in integer
floor division, not rounded to nearest — and outside the mask the pixel is
unchanged. -/
theorem overlay_blend_truncation (image : Img) (md : SamMask) (p : List Char)
    (h w : Nat) (hr : imgRect image h w = true) (hc : hasChannels image 3 = true)
    (hm : maskRect md.mask h w = true) (i j : Nat) (hi : i < h) (hj : j < w) :
    ∃ res, createRedMaskOverlay image [md] p = some (p, res) ∧
      pxAt res i j = (if mAt md.mask i j then
          [((pxAt image i j).getD 0 0 + 255) / 2, (pxAt image i j).getD 1 0 / 2,
            (pxAt image i j).getD 2 0 / 2]
        else pxAt image i j) := by
  obtain ⟨h1, h2⟩ := rect_spec hr
  obtain ⟨ov', hsome, _, hch', hpt⟩ := applyRedMask_spec hr hc hm
  refine ⟨ov', ?_, ?_⟩
  · rw [createRedMaskOverlay, List.foldlM_cons, hsome]
    have hx : (some ov' >>= fun o =>
        List.foldlM (fun ov md => applyRedMask ov md.mask) o ([] : List SamMask))
        = some ov' := rfl
    rw [hx]
    simp only [Option.some_bind]
    rw [save_ok_of_channels3 hch' p]
    rfl
  · rw [hpt i j hi hj]
    cases hb : mAt md.mask i j with
    | false => simp
    | true =>
      simp only [if_true]
      have hlen3 : (pxAt image i j).length = 3 := hasChannels_px hc h1 h2 hi hj
      obtain ⟨a, b, c, habc⟩ := length_three_cases hlen3
      rw [habc, blendPx_three]
      rfl

/-- Counterexample to claim C2 as stated: at a black source pixel inside the
mask the code stores red 127 (float truncation), while the claimed
round-to-nearest blend gives red 128. -/
theorem overlay_blend_round_counterexample :
    createRedMaskOverlay [[[0, 0, 0]]] [⟨[[true]], 1, [0, 0, 1, 1]⟩] "o.jpg".toList
      = some ("o.jpg".toList, [[[127, 0, 0]]]) ∧
    roundBlendPx [0, 0, 0] = [128, 0, 0] ∧
    ([[[(127 : Nat), 0, 0]]] : Img) ≠ [[[128, 0, 0]]] := by
  have hpx : blendPx [0, 0, 0] = [127, 0, 0] := by rw [blendPx_three]
  have h255 : roundBlendChan 0 255 = 128 := by
    unfold roundBlendChan alphaCoef
    rw [show ((0 : ℕ) : ℚ) * (1 - 1 / 2) + ((255 : ℕ) : ℚ) * (1 / 2) = 255 / 2 by
      push_cast; ring]
    rw [round_eq]
    norm_num
    decide
  have h0 : roundBlendChan 0 0 = 0 := by
    unfold roundBlendChan alphaCoef
    rw [show ((0 : ℕ) : ℚ) * (1 - 1 / 2) + ((0 : ℕ) : ℚ) * (1 / 2) = 0 by
      push_cast; ring]
    simp
  refine ⟨?_, ?_, by decide⟩
  · calc createRedMaskOverlay [[[0, 0, 0]]] [⟨[[true]], 1, [0, 0, 1, 1]⟩] "o.jpg".toList
        = some ("o.jpg".toList, [[blendPx [0, 0, 0]]]) := rfl
      _ = some ("o.jpg".toList, [[[127, 0, 0]]]) := by rw [hpx]
  · calc roundBlendPx [0, 0, 0]
        = [roundBlendChan 0 255, roundBlendChan 0 0, roundBlendChan 0 0] := rfl
      _ = [128, 0, 0] := by rw [h255, h0]

/-- Witness for C2 (amended) on a concrete 1 x 1 image. -/
theorem overlay_blend_truncation_witness :
    (imgRect [[[10, 20, 31]]] 1 1 = true ∧ hasChannels [[[10, 20, 31]]] 3 = true ∧
      maskRect ([[true]] : BMask) 1 1 = true ∧ 0 < 1) ∧
    ∃ res, createRedMaskOverlay [[[10, 20, 31]]] [⟨[[true]], 1, [0, 0, 1, 1]⟩]
        "o.jpg".toList = some ("o.jpg".toList, res) ∧
      pxAt res 0 0 = (if mAt ([[true]] : BMask) 0 0 then
          [((pxAt [[[10, 20, 31]]] 0 0).getD 0 0 + 255) / 2,
            (pxAt [[[10, 20, 31]]] 0 0).getD 1 0 / 2,
            (pxAt [[[10, 20, 31]]] 0 0).getD 2 0 / 2]
        else pxAt [[[10, 20, 31]]] 0 0) :=
  ⟨⟨by decide, by decide, by decide, by decide⟩,
    overlay_blend_truncation [[[10, 20, 31]]] ⟨[[true]], 1, [0, 0, 1, 1]⟩
      "o.jpg".toList 1 1 (by decide) (by decide) (by decide) 0 0 (by decide) (by decide)⟩

/-- Witness for C1 on a concrete 1 x 2 image with one mask. -/
theorem cutout_alpha_union_rgb_preserved_witness :
    (imgRect [[[1, 2, 3], [4, 5, 6]]] 1 2 = true ∧
      (hasChannels [[[1, 2, 3], [4, 5, 6]]] 3 = true ∨
        hasChannels [[[1, 2, 3], [4, 5, 6]]] 4 = true) ∧
      (∀ md ∈ [({ mask := [[true, false]], score := 1, bbox := [] } : SamMask)],
        maskRect md.mask 1 2 = true) ∧
      ([({ mask := [[true, false]], score := 1, bbox := [] } : SamMask)] ≠ []) ∧
      0 < 1 ∧ 1 < 2) ∧
    ∃ out arr, createTransparentCutout [[[1, 2, 3], [4, 5, 6]]]
        [({ mask := [[true, false]], score := 1, bbox := [] } : SamMask)]
        "o.jpg".toList = some (out, arr) ∧
      (pxAt arr 0 1).getD 3 0
        = (if [({ mask := [[true, false]], score := 1, bbox := [] } : SamMask)].any
            (fun md => mAt md.mask 0 1) then 255 else 0) ∧
      (pxAt arr 0 1).take 3 = (pxAt [[[1, 2, 3], [4, 5, 6]]] 0 1).take 3 :=
  ⟨⟨by decide, Or.inl (by decide), by decide, by decide, by decide, by decide⟩,
    cutout_alpha_union_rgb_preserved [[[1, 2, 3], [4, 5, 6]]]
      [⟨[[true, false]], 1, []⟩] "o.jpg".toList 1 2 (by decide) (Or.inl (by decide))
      (by decide) (by decide) 0 1 (by decide) (by decide)⟩

/-- Claim C6: `create_transparent_cutout` rewrites the requested path to a
`.png` path unless it already ends in `.png` case-insensitively, writes and
returns that path (which always ends in `.png` case-insensitively), while
`create_red_mask_overlay` writes to and returns the requested path
unchanged. -/
theorem cutout_forces_png_overlay_preserves_path (imgC : Img) (masksC : List SamMask)
    (imgO : Img) (masksO : List SamMask) (p : List Char) (h w hO wO : Nat)
    (hrC : imgRect imgC h w = true)
    (hmsC : ∀ md ∈ masksC, maskRect md.mask h w = true)
    (hrO : imgRect imgO hO wO = true) (hcO : hasChannels imgO 3 = true)
    (hmsO : ∀ md ∈ masksO, maskRect md.mask hO wO = true) :
    (createTransparentCutout imgC masksC p).map Prod.fst
      = some (if endsWithPngLower p then p else (splitextP p).1 ++ ".png".toList) ∧
    endsWithPngLower (if endsWithPngLower p then p
      else (splitextP p).1 ++ ".png".toList) = true ∧
    (createRedMaskOverlay imgO masksO p).map Prod.fst = some p := by
  refine ⟨?_, ?_, ?_⟩
  · simp only [createTransparentCutout]
    rw [if_pos (cutout_guard hrC hmsC)]
    rfl
  · by_cases hp : endsWithPngLower p = true
    · rw [if_pos hp]; exact hp
    · rw [if_neg hp]
      exact endsWithPngLower_append _
  · obtain ⟨ov', hs', _, hch'⟩ := overlayFoldM_spec masksO imgO hrO hcO hmsO
    rw [createRedMaskOverlay, hs']
    simp only [Option.some_bind]
    rw [save_ok_of_channels3 hch' p]
    rfl

/-- Witness for C6: a `.jpg` request is rewritten for the cutout and kept
for the overlay. -/
theorem cutout_forces_png_overlay_preserves_path_witness :
    (imgRect [[[1, 2, 3]]] 1 1 = true ∧ hasChannels [[[1, 2, 3]]] 3 = true) ∧
    (createTransparentCutout [[[1, 2, 3]]]
        [({ mask := [[true]], score := 1, bbox := [] } : SamMask)] "out.jpg".toList).map
        Prod.fst
      = some (if endsWithPngLower "out.jpg".toList then "out.jpg".toList
          else (splitextP "out.jpg".toList).1 ++ ".png".toList) ∧
    endsWithPngLower (if endsWithPngLower "out.jpg".toList then "out.jpg".toList
      else (splitextP "out.jpg".toList).1 ++ ".png".toList) = true ∧
    (createRedMaskOverlay [[[1, 2, 3]]]
        [({ mask := [[true]], score := 1, bbox := [] } : SamMask)] "out.jpg".toList).map
        Prod.fst = some "out.jpg".toList :=
  ⟨⟨by decide, by decide⟩,
    cutout_forces_png_overlay_preserves_path [[[1, 2, 3]]] [⟨[[true]], 1, []⟩]
      [[[1, 2, 3]]] [⟨[[true]], 1, []⟩] "out.jpg".toList 1 1 1 1 (by decide) (by decide)
      (by decide) (by decide) (by decide)⟩

/-! ## Helper lemmas: mapM over Except (the per-box segmentation loop) -/

theorem isOk_map {ε α β : Type} (g : α → β) (e : Except ε α) :
    (e.map g).isOk = e.isOk := by cases e <;> rfl

theorem mapM_except_length {α β ε : Type} (f : α → Except ε β) :
    ∀ (l : List α) (l' : List β), l.mapM f = Except.ok l' → l'.length = l.length
  | [], l', h => by
    rw [List.mapM_nil] at h
    cases h
    rfl
  | a :: l, l', h => by
    rw [List.mapM_cons] at h
    cases hfa : f a with
    | error e => rw [hfa] at h; exact nomatch h
    | ok b =>
      rw [hfa] at h
      cases hml : l.mapM f with
      | error e => rw [hml] at h; exact nomatch h
      | ok bs =>
        rw [hml] at h
        have h' : Except.ok (b :: bs) = Except.ok l' := h
        cases h'
        simp [mapM_except_length f l bs hml]

theorem mapM_except_ok_of_all {α β ε : Type} (f : α → Except ε β) :
    ∀ (l : List α), (∀ a ∈ l, (f a).isOk = true) → ∃ l', l.mapM f = Except.ok l'
  | [], _ => ⟨[], by rw [List.mapM_nil]; rfl⟩
  | a :: l, h => by
    have hfa := h a (List.mem_cons_self ..)
    cases hfae : f a with
    | error e => rw [hfae] at hfa; exact nomatch hfa
    | ok b =>
      obtain ⟨l', hl'⟩ :=
        mapM_except_ok_of_all f l (fun x hx => h x (List.mem_cons_of_mem _ hx))
      refine ⟨b :: l', ?_⟩
      rw [List.mapM_cons, hfae, hl']
      rfl

theorem mapM_except_error {α β ε : Type} (f : α → Except ε β) :
    ∀ (l : List α), (∃ a ∈ l, (f a).isOk = false) → ∃ e, l.mapM f = Except.error e
  | [], h => absurd h (by simp)
  | a :: l, h => by
    cases hfa : f a with
    | error e =>
      refine ⟨e, ?_⟩
      rw [List.mapM_cons, hfa]
      rfl
    | ok b =>
      obtain ⟨x, hx, hxf⟩ := h
      rcases List.mem_cons.mp hx with hxa | hxl
      · rw [hxa, hfa] at hxf
        exact nomatch hxf
      · obtain ⟨e, he⟩ := mapM_except_error f l ⟨x, hxl, hxf⟩
        refine ⟨e, ?_⟩
        rw [List.mapM_cons, hfa, he]
        rfl

theorem sam2Segmentation_true_eq (predict : BBox → Except (List Char) (BMask × ℚ))
    (bboxes : List BBox) :
    sam2Segmentation true true predict bboxes
      = (match bboxes.mapM (fun bb => (predict bb).map
          (fun ms => SamMask.mk ms.1 ms.2 bb)) with
        | .ok l => l
        | .error _ => []) := rfl

/-! ## Claim C3 -/

/-- Counterexample to claim C3 as stated: with two boxes where the first
box's predict call succeeds and the second raises, `sam2_segmentation`
returns `[]` — the first box does not yield its mask, because a failure on
one box aborts the processing of all boxes (the whole loop sits in one
`try`). -/
theorem seg_per_box_counterexample :
    (((fun bb : BBox => if bb.head? == some 0 then
        Except.ok ([[true]], (1 : ℚ))
      else (Except.error "fail".toList : Except (List Char) (BMask × ℚ))) [0, 0, 1, 1]).isOk
      = true) ∧
    sam2Segmentation true true
      (fun bb : BBox => if bb.head? == some 0 then
        Except.ok ([[true]], (1 : ℚ))
      else (Except.error "fail".toList : Except (List Char) (BMask × ℚ)))
      [[0, 0, 1, 1], [2, 2, 3, 3]] = [] := by
  constructor
  · rfl
  · rfl

/-- Claim C3 (amended): when the model is loaded and the image is set, each
bounding box yields exactly one mask provided every per-box predict call
succeeds; but a segmentation failure while processing any one box aborts the
whole stage, which returns `[]`, dropping the other boxes' masks. -/
theorem seg_cardinality_and_abort
    (predictA predictB : BBox → Except (List Char) (BMask × ℚ))
    (bbA bbB : List BBox) (hA : ∀ bb ∈ bbA, (predictA bb).isOk = true)
    (hB : ∃ bb ∈ bbB, (predictB bb).isOk = false) :
    (sam2Segmentation true true predictA bbA).length = bbA.length ∧
    sam2Segmentation true true predictB bbB = [] := by
  constructor
  · rw [sam2Segmentation_true_eq]
    have hA' : ∀ bb ∈ bbA,
        ((predictA bb).map (fun ms : BMask × ℚ => SamMask.mk ms.1 ms.2 bb)).isOk
          = true := by
      intro bb hbb
      rw [isOk_map]
      exact hA bb hbb
    obtain ⟨l', hl'⟩ := mapM_except_ok_of_all _ bbA hA'
    rw [hl']
    exact mapM_except_length _ bbA l' hl'
  · rw [sam2Segmentation_true_eq]
    obtain ⟨bb0, hbb0, hf0⟩ := hB
    have hf0' : ((predictB bb0).map
        (fun ms : BMask × ℚ => SamMask.mk ms.1 ms.2 bb0)).isOk = false := by
      rw [isOk_map]
      exact hf0
    obtain ⟨e, he⟩ := mapM_except_error
      (fun bb => (predictB bb).map (fun ms : BMask × ℚ => SamMask.mk ms.1 ms.2 bb))
      bbB ⟨bb0, hbb0, hf0'⟩
    rw [he]

/-- Witness for C3 (amended): an all-succeeding predictor on two boxes and an
always-failing predictor on one box. -/
theorem seg_cardinality_and_abort_witness :
    (∀ bb ∈ ([[0, 0, 1, 1], [2, 2, 3, 3]] : List BBox),
      ((fun _ : BBox => (Except.ok ([[true]], (1 : ℚ)) :
        Except (List Char) (BMask × ℚ))) bb).isOk = true) ∧
    (∃ bb ∈ ([[0, 0, 1, 1]] : List BBox),
      ((fun _ : BBox => (Except.error "e".toList :
        Except (List Char) (BMask × ℚ))) bb).isOk = false) ∧
    (sam2Segmentation true true
        (fun _ => Except.ok ([[true]], 1)) [[0, 0, 1, 1], [2, 2, 3, 3]]).length
      = ([[0, 0, 1, 1], [2, 2, 3, 3]] : List BBox).length ∧
    sam2Segmentation true true (fun _ => Except.error "e".toList) [[0, 0, 1, 1]] = [] :=
  ⟨fun _ _ => rfl, ⟨[0, 0, 1, 1], List.mem_cons_self .., rfl⟩,
    seg_cardinality_and_abort (fun _ => Except.ok ([[true]], 1))
      (fun _ => Except.error "e".toList) [[0, 0, 1, 1], [2, 2, 3, 3]] [[0, 0, 1, 1]]
      (fun _ _ => rfl) ⟨[0, 0, 1, 1], List.mem_cons_self .., rfl⟩⟩

/-! ## Claim C4 -/

theorem zip_setAlpha_channels {rgba : Img} {cm : BMask}
    (hc : hasChannels rgba 4 = true) :
    hasChannels (List.zipWith (fun rp rm => List.zipWith setAlphaPx rp rm) rgba cm)
      4 = true := by
  unfold hasChannels at hc ⊢
  have hin : ∀ (px : Pixel) (b : Bool), (px.length == 4) = true →
      ((fun _ => true) b) = true → ((setAlphaPx px b).length == 4) = true := by
    intro px b hpx _
    simpa [setAlphaPx] using hpx
  have hstep : ∀ (rp : List Pixel) (rm : List Bool),
      (rp.all fun px => px.length == 4) = true → ((fun _ => true) rm) = true →
      ((List.zipWith setAlphaPx rp rm).all fun px => px.length == 4) = true := by
    intro rp rm hrp _
    exact @all_zipWith Pixel Bool Pixel setAlphaPx (fun px => px.length == 4)
      (fun px => px.length == 4) (fun _ => true) hin rp rm hrp (by simp)
  exact @all_zipWith (List Pixel) (List Bool) (List Pixel)
    (fun rp rm => List.zipWith setAlphaPx rp rm)
    (fun r => r.all fun px => px.length == 4) (fun r => r.all fun px => px.length == 4)
    (fun _ => true) hstep rgba cm hc (by simp)

/-- Counterexample to claim C4 as stated: a 4-channel input image yields a
3-channel overlay output, because `process_image` converts the loaded image
to RGB before compositing. -/
theorem overlay_channels_counterexample :
    hasChannels ((fun _ : List Char => [[[10, 20, 30, 40]]]) "a.png".toList) 4 = true ∧
    (processImage (fun _ => true) (fun _ => [[[10, 20, 30, 40]]])
        (fun _ _ => [⟨[0, 0, 5, 5], "x".toList, 1⟩])
        (fun _ _ => [⟨[[true]], 1, [0, 0, 5, 5]⟩]) "a.png".toList "x".toList none
        "overlay".toList).written
      = some ("a_mask.jpg".toList, [[blendPx [10, 20, 30]]]) ∧
    hasChannels [[blendPx [10, 20, 30]]] 4 = false :=
  ⟨rfl, rfl, rfl⟩

/-- Claim C4 (amended): `process_image` converts the loaded image to RGB, so
the overlay output always has exactly 3 channels regardless of the input's
channel count, while the cutout output always has exactly 4 channels. -/
theorem output_channels (fsExists : List Char → Bool) (loadImage : List Char → Img)
    (ground : Img → List Char → List GroundingResult)
    (segmentFn : Img → List BBox → List SamMask) (imagePath textPrompt : List Char)
    (outArg : Option (List Char)) (pov pct : List Char) (outov outct : Img)
    (hch : ∀ r ∈ loadImage imagePath, ∀ px ∈ r, 3 ≤ px.length)
    (hov : (processImage fsExists loadImage ground segmentFn imagePath textPrompt
        outArg "overlay".toList).written = some (pov, outov))
    (hct : (processImage fsExists loadImage ground segmentFn imagePath textPrompt
        outArg "cutout".toList).written = some (pct, outct)) :
    hasChannels outov 3 = true ∧ hasChannels outct 4 = true := by
  have hc3 : hasChannels (convertRGB (loadImage imagePath)) 3 = true :=
    convertRGB_channels hch
  by_cases hf : fsExists imagePath = true
  · simp only [processImage, hf, Bool.not_true, Bool.false_eq_true, if_false] at hov hct
    by_cases hg : (ground (convertRGB (loadImage imagePath)) textPrompt).isEmpty = true
    · rw [if_pos hg] at hov
      exact absurd hov (by simp)
    · rw [if_neg hg] at hov hct
      constructor
      · by_cases hs : (segmentFn (convertRGB (loadImage imagePath))
            ((ground (convertRGB (loadImage imagePath)) textPrompt).map
              (fun r => r.bbox))).isEmpty = true
        · rw [if_pos hs] at hov
          exact absurd hov (by simp)
        · rw [if_neg hs] at hov
          rw [if_neg (by decide)] at hov
          rw [createRedMaskOverlay] at hov
          obtain ⟨ov', hfold, hg⟩ := Option.bind_eq_some.mp hov
          split at hg
          · exact absurd hg (by simp)
          · have hovv : ov' = outov := (Prod.mk.injEq _ _ _ _ ▸ Option.some.inj hg).2
            rw [← hovv]
            exact overlayFoldM_channels _ _ _ hc3 hfold
      · by_cases hs : (segmentFn (convertRGB (loadImage imagePath))
            ((ground (convertRGB (loadImage imagePath)) textPrompt).map
              (fun r => r.bbox))).isEmpty = true
        · rw [if_pos hs] at hct
          exact absurd hct (by simp)
        · rw [if_neg hs] at hct
          rw [if_pos (by decide)] at hct
          simp only [createTransparentCutout] at hct
          by_cases hgd : ((segmentFn (convertRGB (loadImage imagePath))
              ((ground (convertRGB (loadImage imagePath)) textPrompt).map
                (fun r => r.bbox))).all
              (fun md => maskRect md.mask
                (convertRGBA (convertRGB (loadImage imagePath))).length
                (((convertRGBA (convertRGB (loadImage imagePath))).headD []).length)))
              = true
          · rw [if_pos hgd] at hct
            have hpair := Option.some.inj hct
            have harr := (Prod.mk.injEq _ _ _ _ ▸ hpair).2
            rw [← harr]
            exact zip_setAlpha_channels (convertRGBA_channels (Or.inl hc3))
          · rw [if_neg hgd] at hct
            exact absurd hct (by simp)
  · simp only [processImage, Bool.not_eq_true', eq_false_of_ne_true hf] at hov
    simp only [Bool.not_false, if_true] at hov
    exact absurd hov (by simp)

/-- Witness for C4 (amended) on a 3-channel 1 x 1 input. -/
theorem output_channels_witness :
    ((∀ r ∈ [[[(1 : Nat), 2, 3]]], ∀ px ∈ r, 3 ≤ px.length) ∧
      (processImage (fun _ => true) (fun _ => [[[1, 2, 3]]])
          (fun _ _ => [⟨[0, 0, 1, 1], "x".toList, 1⟩])
          (fun _ _ => [⟨[[true]], 1, [0, 0, 1, 1]⟩]) "a.png".toList "x".toList none
          "overlay".toList).written
        = some ("a_mask.jpg".toList, [[blendPx [1, 2, 3]]]) ∧
      (processImage (fun _ => true) (fun _ => [[[1, 2, 3]]])
          (fun _ _ => [⟨[0, 0, 1, 1], "x".toList, 1⟩])
          (fun _ _ => [⟨[[true]], 1, [0, 0, 1, 1]⟩]) "a.png".toList "x".toList none
          "cutout".toList).written
        = some ("a_cutout.png".toList, [[[1, 2, 3, 255]]])) ∧
    hasChannels [[blendPx [1, 2, 3]]] 3 = true ∧
    hasChannels [[[1, 2, 3, 255]]] 4 = true :=
  ⟨⟨by decide, rfl, rfl⟩,
    output_channels (fun _ => true) (fun _ => [[[1, 2, 3]]])
      (fun _ _ => [⟨[0, 0, 1, 1], "x".toList, 1⟩])
      (fun _ _ => [⟨[[true]], 1, [0, 0, 1, 1]⟩]) "a.png".toList "x".toList none
      "a_mask.jpg".toList "a_cutout.png".toList [[blendPx [1, 2, 3]]] [[[1, 2, 3, 255]]]
      (by decide) rfl rfl⟩

end LazySegment
